import Mathlib

/-!
Shallow embedding of the SpotifyVisualiser core pipeline (src/script.js):
the record normalizer `standardizeStreamData`, the validity filter inside
`handleFileProcessing`, the four aggregation functions `getListeningOverTime`,
`getTopItems`, `getHourlyActivity`, `getDailyActivity`, the summary calculator
`displaySummaryStats`, and the orchestration in `handleFileProcessing` /
`displayDashboard`.

Modelling conventions:
* JavaScript field values coming out of `JSON.parse` are modelled by `JSValue`
  (undefined / null / boolean / number / string).  Numbers are modelled as
  integers: the streaming-history exports carry integer millisecond counts, and
  no claim depends on fractional numbers; string-to-number coercion is likewise
  modelled for integer numerals only.
* `new Date(...)`, the local-time conversion and the locale month renderer are
  implementation / environment dependent builtins; they are abstracted into a
  `DateEnv` parameter.  The field extractors `getHours`, `getDay`,
  `getFullYear`, `getMonth` are given by the ECMAScript specification as pure
  arithmetic on the time value, and are embedded as such (floor division and
  Euclidean remainder; the civil-calendar computation for year/month).
* `x.toFixed(k)` followed by `parseFloat`, and `Math.round`, are modelled as
  exact decimal rounding (round half towards positive infinity) on rationals;
  the displayed quantities in the source are nonnegative, where this agrees
  with the JavaScript semantics.
* DOM access, chart rendering and locale thousands-grouping are presentation
  concerns outside the embedded core; the orchestrator is modelled as a pure
  function from the parsed file contents to a terminal `Outcome`.
-/

/-- JavaScript values as they appear in parsed streaming-history JSON records
(scalar JSON values plus `undefined` for an absent property). -/
inductive JSValue where
  | undef
  | vnull
  | vbool (b : Bool)
  | vnum (n : Int)
  | vstr (s : String)
deriving DecidableEq, Repr

/-- JavaScript truthiness of a `JSValue` (`undefined`, `null`, `false`, `0`
and the empty string are falsy). -/
def JSValue.truthy : JSValue → Bool
  | .undef => false
  | .vnull => false
  | .vbool b => b
  | .vnum n => n != 0
  | .vstr s => s != ""

/-- Numeric value of a digit list (most significant first). -/
def digitsVal (cs : List Char) : Nat :=
  cs.foldl (fun n c => 10 * n + (c.toNat - 48)) 0

/-- JavaScript `ToNumber` on strings, restricted to the integer numerals the
model supports: surrounding whitespace is trimmed, the empty string is `0`, an
optional sign followed by digits is an integer, anything else is `NaN`
(`none`).  Fractional, exponent and hexadecimal numerals are outside the
integer-valued model. -/
def strToNumber (s : String) : Option Int :=
  match s.trim.data with
  | [] => some 0
  | '-' :: rest =>
    if rest.length > 0 && rest.all (fun c => c.isDigit) then
      some (-(digitsVal rest : Int))
    else none
  | '+' :: rest =>
    if rest.length > 0 && rest.all (fun c => c.isDigit) then
      some ((digitsVal rest : Int))
    else none
  | cs =>
    if cs.length > 0 && cs.all (fun c => c.isDigit) then
      some ((digitsVal cs : Int))
    else none

/-- JavaScript `ToNumber`; `none` stands for `NaN`. -/
def JSValue.toNumber : JSValue → Option Int
  | .undef => none
  | .vnull => some 0
  | .vbool b => some (if b then 1 else 0)
  | .vnum n => some n
  | .vstr s => strToNumber s

/-- JavaScript `a || b`: the first operand when it is truthy, otherwise the
second operand. -/
def jsOr (a b : JSValue) : JSValue :=
  if a.truthy then a else b

/-- JavaScript comparison `v > 0` (relational comparison coerces the operand
with `ToNumber`; a `NaN` operand makes the comparison false). -/
def jsGtZero (v : JSValue) : Bool :=
  match v.toNumber with
  | some n => decide (0 < n)
  | none => false

/-- One raw play-event object as decoded from the source JSON; an absent
property reads as `undefined`.  Only the eight properties the normalizer looks
at are modelled. -/
structure RawRecord where
  endTime : JSValue := .undef
  ts : JSValue := .undef
  artistName : JSValue := .undef
  master_metadata_album_artist_name : JSValue := .undef
  trackName : JSValue := .undef
  master_metadata_track_name : JSValue := .undef
  msPlayed : JSValue := .undef
  ms_played : JSValue := .undef
deriving DecidableEq, Repr

/-- The normalized record shape produced by `standardizeStreamData`. -/
structure CanonicalRecord where
  endTime : JSValue := .undef
  artistName : JSValue := .undef
  trackName : JSValue := .undef
  msPlayed : JSValue := .undef
deriving DecidableEq, Repr

/-- Embedding of `standardizeStreamData` (src/script.js):
each canonical field is `current || legacy` with JavaScript `||`. -/
def standardizeStreamData (stream : RawRecord) : CanonicalRecord :=
  { endTime := jsOr stream.endTime stream.ts
    artistName := jsOr stream.artistName stream.master_metadata_album_artist_name
    trackName := jsOr stream.trackName stream.master_metadata_track_name
    msPlayed := jsOr stream.msPlayed stream.ms_played }

/-- Environment abstracting the implementation-defined `Date` builtins:
`parse` is the time value produced by `new Date(string)` (`none` for an
Invalid Date), `localTime` is the ECMAScript `LocalTime` conversion (UTC time
value to local time value; abstract so that time zones and DST need not be
fixed), and `renderMonth` is the locale month-label renderer
`s => new Date(s).toLocaleString(default, {month: short, year: numeric})`. -/
structure DateEnv where
  parse : String → Option Int
  localTime : Int → Int
  renderMonth : String → String

/-- Time value of `new Date(v)` for the `JSValue` argument the filter passes
in: strings go through the parser, other values through `ToNumber` with the
ECMAScript `TimeClip` range check; `none` is an Invalid Date. -/
def newDateValue (env : DateEnv) (v : JSValue) : Option Int :=
  match v with
  | .vstr s => env.parse s
  | w =>
    match w.toNumber with
    | some n => if n.natAbs ≤ 8640000000000000 then some n else none
    | none => none

/-- Embedding of the validity filter applied in `handleFileProcessing`:
`stream.msPlayed > 0 && stream.trackName && stream.artistName &&
stream.endTime && !isNaN(new Date(stream.endTime).getTime())`. -/
def validStream (env : DateEnv) (stream : CanonicalRecord) : Bool :=
  jsGtZero stream.msPlayed && stream.trackName.truthy && stream.artistName.truthy &&
    stream.endTime.truthy && (newDateValue env stream.endTime).isSome

/-- ECMAScript `HourFromTime` applied to the local time value: the hour-of-day
index computed by `new Date(e).getHours()` for a valid date. -/
def hourIdx (env : DateEnv) (t : Int) : Nat :=
  (((env.localTime t).fdiv 3600000).emod 24).toNat

/-- ECMAScript `WeekDay` applied to the local time value: the day-of-week
index computed by `new Date(e).getDay()` for a valid date (0 = Sunday). -/
def dayIdx (env : DateEnv) (t : Int) : Nat :=
  ((((env.localTime t).fdiv 86400000) + 4).emod 7).toNat

/-- Civil calendar year and 0-based month for a day number counted from
1970-01-01, as computed by `getFullYear` / `getMonth` (proleptic Gregorian
calendar, standard era-based day-to-date conversion). -/
def civilYM (z0 : Int) : Int × Nat :=
  let z := z0 + 719468
  let era := z.fdiv 146097
  let doe : Nat := (z - era * 146097).toNat
  let yoe : Nat := (doe - doe / 1460 + doe / 36524 - doe / 146096) / 365
  let doy : Nat := doe - (365 * yoe + yoe / 4 - yoe / 100)
  let mp : Nat := (5 * doy + 2) / 153
  let m : Nat := if mp < 10 then mp + 3 else mp - 9
  let y : Int := (yoe : Int) + era * 400 + (if m ≤ 2 then 1 else 0)
  (y, m - 1)

/-- ECMAScript day number of the local time value (floor of division by
86400000 milliseconds). -/
def localDays (env : DateEnv) (t : Int) : Int :=
  (env.localTime t).fdiv 86400000

/-- Value of `date.getFullYear()` for the valid date with time value `t`. -/
def getFullYear (env : DateEnv) (t : Int) : Int :=
  (civilYM (localDays env t)).1

/-- Value of `date.getMonth()` (0-based month) for the valid date with time
value `t`. -/
def getMonthIdx (env : DateEnv) (t : Int) : Nat :=
  (civilYM (localDays env t)).2

/-- Zero-padding of `String(month + 1).padStart(2, "0")` for a 1-based month
number. -/
def pad2 (n : Nat) : String :=
  if n < 10 then "0" ++ toString n else toString n

/-- The grouping key `${date.getFullYear()}-${String(date.getMonth() + 1).padStart(2, "0")}`
built by `getListeningOverTime` for a valid date. -/
def monthKey (env : DateEnv) (t : Int) : String :=
  toString (getFullYear env t) ++ "-" ++ pad2 (getMonthIdx env t + 1)

/-- A validated stream record at the canonical types used by every
aggregation: this is the `ValidatedRecord` shape of the specification data
model (the collection handed to the aggregation engine). -/
structure StreamRecord where
  endTime : String
  artistName : String
  trackName : String
  msPlayed : Int
deriving DecidableEq, Repr

/-- Reading of a canonical record at the canonical field types; `none` when
some field is not of its documented type. -/
def toStream (c : CanonicalRecord) : Option StreamRecord :=
  match c.endTime, c.artistName, c.trackName, c.msPlayed with
  | .vstr e, .vstr a, .vstr tn, .vnum m => some ⟨e, a, tn, m⟩
  | _, _, _, _ => none

/-- The month grouping key of one record inside `getListeningOverTime`: for an
unparseable `endTime` the JavaScript key interpolation yields the literal
string `"NaN-NaN"` (all invalid dates share that bucket). -/
def monthKeyOf (env : DateEnv) (r : StreamRecord) : String :=
  match env.parse r.endTime with
  | some t => monthKey env t
  | none => "NaN-NaN"

/-- Association-list lookup in the accumulator object of a grouping reduce. -/
def lookAcc : List (String × Int) → String → Option Int
  | [], _ => none
  | (k, v) :: rest, k2 => if k2 = k then some v else lookAcc rest k2

/-- Property update `acc[k] = (acc[k] || 0) + m` on the accumulator object:
an existing key keeps its position, a new key is appended (JavaScript string
keys enumerate in insertion order). -/
def addToAcc : List (String × Int) → String → Int → List (String × Int)
  | [], k, m => [(k, m)]
  | (k1, v) :: rest, k, m =>
    if k1 = k then (k1, v + m) :: rest else (k1, v) :: addToAcc rest k m

/-- One step of the grouping reduce: records whose key function yields `none`
are skipped. -/
def stepAcc (keyOf : α → Option String) (msOf : α → Int)
    (acc : List (String × Int)) (r : α) : List (String × Int) :=
  match keyOf r with
  | some k => addToAcc acc k (msOf r)
  | none => acc

/-- The grouping reduce `data.reduce((acc, r) => ..., {})` summing `msOf` per
key, in insertion order. -/
def groupSum (keyOf : α → Option String) (msOf : α → Int)
    (data : List α) : List (String × Int) :=
  data.foldl (stepAcc keyOf msOf) []

/-- Decides whether a string is a canonical array-index property key
(the canonical decimal numeral of an integer below 2^32 - 1); such keys are
enumerated before all other string keys by `Object.entries`.  The digit test
and value are computed structurally over the character list. -/
def isArrayIndexKey (s : String) : Bool :=
  match s.data with
  | [] => false
  | cs =>
    cs.all (fun c => c.isDigit) && decide (digitsVal cs < 4294967295) &&
      toString (digitsVal cs) == s

/-- Numeric value of an array-index key (meaningful only on array-index
keys, where every character is a digit). -/
def idxVal (s : String) : Nat :=
  digitsVal s.data

/-- Insertion into a list kept in ascending `idxVal` order. -/
def insertAscIdx (x : String × Int) : List (String × Int) → List (String × Int)
  | [] => [x]
  | y :: ys => if idxVal y.1 ≤ idxVal x.1 then y :: insertAscIdx x ys else x :: y :: ys

/-- Enumeration order of `Object.entries` on the accumulator object: integer
array-index keys first in ascending numeric order, then the remaining string
keys in insertion order. -/
def objectEntriesOrder (l : List (String × Int)) : List (String × Int) :=
  (l.filter (fun e => isArrayIndexKey e.1)).foldl (fun acc x => insertAscIdx x acc) []
    ++ l.filter (fun e => !isArrayIndexKey e.1)

/-- Stable insertion for the descending sort `(a, b) => b - a`: the new entry
goes after every entry with a greater-or-equal value. -/
def insertEntryDesc (x : String × Int) : List (String × Int) → List (String × Int)
  | [] => [x]
  | y :: ys => if x.2 ≤ y.2 then y :: insertEntryDesc x ys else x :: y :: ys

/-- Stable sort of the entries by value, descending (JavaScript
`Array.prototype.sort` is stable). -/
def sortEntriesDesc (l : List (String × Int)) : List (String × Int) :=
  l.foldl (fun acc x => insertEntryDesc x acc) []

/-- Insertion for the ascending lexicographic key sort `Object.keys(...).sort()`. -/
def insertKeyAsc (x : String × Int) : List (String × Int) → List (String × Int)
  | [] => [x]
  | y :: ys => if y.1 < x.1 then y :: insertKeyAsc x ys else x :: y :: ys

/-- Ascending lexicographic sort of the bucket entries by key. -/
def sortByKeyAsc (l : List (String × Int)) : List (String × Int) :=
  l.foldl (fun acc x => insertKeyAsc x acc) []

/-- Rounding of `x / d` to the nearest integer, halves towards positive
infinity: the exact value of `Math.round(x / d)` (`(2 * x + d).fdiv (2 * d)`
is the floor of `x / d + 1 / 2`). -/
def roundDiv (x : Int) (d : Nat) : Int :=
  (2 * x + (d : Int)).fdiv (2 * (d : Int))

/-- An aggregate view: positional label / data pairs handed to the charts. -/
structure AggView where
  labels : List String
  data : List ℚ
deriving DecidableEq, Repr

/-- Key-projection step of `getTopItems`: `if (item)` skips entries with a
falsy (empty) key. -/
def topKeyOf (key : StreamRecord → String) (r : StreamRecord) : Option String :=
  if key r = "" then none else some (key r)

/-- The entries of the grouping object of `getTopItems`, in `Object.entries`
enumeration order. -/
def topEntriesAll (streams : List StreamRecord) (key : StreamRecord → String) :
    List (String × Int) :=
  objectEntriesOrder (groupSum (topKeyOf key) (fun r => r.msPlayed) streams)

/-- The sorted, truncated entry list of `getTopItems`
(`Object.entries(itemCounts).sort(([, a], [, b]) => b - a).slice(0, count)`). -/
def topEntries (streams : List StreamRecord) (key : StreamRecord → String)
    (count : Nat) : List (String × Int) :=
  (sortEntriesDesc (topEntriesAll streams key)).take count

/-- Embedding of `getTopItems(data, itemKey, count)`: group by the selected
field, sum `msPlayed`, sort descending, truncate, and convert each total to
minutes rounded to 2 decimal places. -/
def getTopItems (streams : List StreamRecord) (key : StreamRecord → String)
    (count : Nat) : AggView :=
  { labels := (topEntries streams key count).map Prod.fst
    data := (topEntries streams key count).map
      (fun p => (roundDiv (100 * p.2) 60000 : ℚ) / 100) }

/-- The sorted monthly bucket list of `getListeningOverTime` (key and summed
milliseconds, ascending by lexicographic key). -/
def monthlyBuckets (env : DateEnv) (streams : List StreamRecord) :
    List (String × Int) :=
  sortByKeyAsc (groupSum (fun r => some (monthKeyOf env r)) (fun r => r.msPlayed) streams)

/-- Embedding of `getListeningOverTime(data)`: group by year-month key,
sort the keys ascending, render labels through the locale month renderer on
`key + "-01"`, and convert each total to hours rounded to 2 decimal places. -/
def getListeningOverTime (env : DateEnv) (streams : List StreamRecord) : AggView :=
  { labels := (monthlyBuckets env streams).map (fun p => env.renderMonth (p.1 ++ "-01"))
    data := (monthlyBuckets env streams).map
      (fun p => (roundDiv (100 * p.2) 3600000 : ℚ) / 100) }

/-- Increment of one slot of a fixed-size counts array
(`counts[i]++`; an index outside the 24 or 7 slots would in JavaScript create
a stray non-index property and leave the slots unchanged, which `List.set`
models by leaving the list unchanged). -/
def bumpAt (l : List Nat) (i : Nat) : List Nat :=
  l.set i (l.getD i 0 + 1)

/-- The 24 hourly counters built by `getHourlyActivity`: records whose
`endTime` does not parse have `getHours()` equal to `NaN` and do not touch any
of the 24 slots. -/
def hourlyCountsOf (env : DateEnv) (streams : List StreamRecord) : List Nat :=
  streams.foldl
    (fun cs r =>
      match env.parse r.endTime with
      | some t => bumpAt cs (hourIdx env t)
      | none => cs)
    (List.replicate 24 0)

/-- Embedding of `getHourlyActivity(data)`. -/
def getHourlyActivity (env : DateEnv) (streams : List StreamRecord) : AggView :=
  { labels := (List.range 24).map (fun i => toString i ++ ":00")
    data := (hourlyCountsOf env streams).map (fun n => (n : ℚ)) }

/-- The 7 day-of-week counters built by `getDailyActivity`. -/
def dailyCountsOf (env : DateEnv) (streams : List StreamRecord) : List Nat :=
  streams.foldl
    (fun cs r =>
      match env.parse r.endTime with
      | some t => bumpAt cs (dayIdx env t)
      | none => cs)
    (List.replicate 7 0)

/-- Embedding of `getDailyActivity(data)`. -/
def getDailyActivity (env : DateEnv) (streams : List StreamRecord) : AggView :=
  { labels := ["Sun", "Mon", "Tue", "Wed", "Thu", "Fri", "Sat"]
    data := (dailyCountsOf env streams).map (fun n => (n : ℚ)) }

/-- The scalar summary metrics computed by `displaySummaryStats` (the locale
thousands-grouping applied for display is presentation and not modelled). -/
structure SummaryStats where
  plays : Nat
  minutes : Int
  hours : ℚ
  uniqueArtists : Nat
  uniqueSongs : Nat
deriving DecidableEq, Repr

/-- Embedding of the calculations in `displaySummaryStats(data)`:
total milliseconds, minutes via `Math.round`, hours from the rounded minutes
via `toFixed(1)`, and distinct truthy artist / track names via `new Set`. -/
def displaySummaryStats (streams : List StreamRecord) : SummaryStats :=
  let totalMs := (streams.map (fun r => r.msPlayed)).sum
  let totalMinutes := roundDiv totalMs 60000
  { plays := streams.length
    minutes := totalMinutes
    hours := (roundDiv (10 * totalMinutes) 60 : ℚ) / 10
    uniqueArtists := ((streams.map (fun r => r.artistName)).filter (fun s => s != "")).dedup.length
    uniqueSongs := ((streams.map (fun r => r.trackName)).filter (fun s => s != "")).dedup.length }

/-- Parsed content of one uploaded file, as seen after `JSON.parse`:
`invalid` when `JSON.parse` throws, `nonArray` for a non-array JSON value
(silently skipped), `records` for a JSON array of raw records. -/
inductive FileData where
  | invalid
  | nonArray
  | records (rs : List RawRecord)
deriving DecidableEq, Repr

/-- The terminal outcome of one `handleFileProcessing` run, one constructor
per distinct user-visible terminal state. -/
inductive Outcome where
  | noFilesSelected
  | parseError
  | noStreamingData
  | noValidRecords
  | success (validStreams : List CanonicalRecord)
deriving DecidableEq, Repr

/-- The diagnostic message `showError` displays for each failure outcome. -/
def outcomeMessage : Outcome → Option String
  | .noFilesSelected => some "Please select your Spotify JSON files first."
  | .parseError => some "Error reading or parsing files. Please make sure they are valid JSON files."
  | .noStreamingData => some "No streaming data found in the selected files."
  | .noValidRecords => some
      "No valid streaming history could be found in your files. Please ensure the files are correct and contain playable tracks."
  | .success _ => none

/-- The sequential accumulation loop over the files: each array file appends
its elements, a non-array file contributes nothing, and a file whose text is
not valid JSON makes `JSON.parse` throw, aborting the whole batch (`none`). -/
def readAllStreams : List FileData → Option (List RawRecord)
  | [] => some []
  | FileData.invalid :: _ => none
  | FileData.nonArray :: fs => readAllStreams fs
  | FileData.records rs :: fs => (readAllStreams fs).map (fun rest => rs ++ rest)

/-- Embedding of `displayDashboard(data)` restricted to its outcome: an empty
validated collection shows the no-valid-history error, otherwise the dashboard
is rendered from the validated records. -/
def displayDashboard (valid : List CanonicalRecord) : Outcome :=
  if valid.length = 0 then .noValidRecords else .success valid

/-- Embedding of the `handleFileProcessing` orchestration over the parsed file
contents: guard on an empty file selection, accumulate all arrays (aborting on
a parse failure), normalize, filter, and dispatch to the dashboard. -/
def handleFileProcessing (env : DateEnv) (files : List FileData) : Outcome :=
  if files.length = 0 then .noFilesSelected
  else
    match readAllStreams files with
    | none => .parseError
    | some allStreams =>
      let standardizedStreams := allStreams.map standardizeStreamData
      if standardizedStreams.length > 0 then
        displayDashboard (standardizedStreams.filter (fun s => validStream env s))
      else .noStreamingData

/-! Specification-side definitions: formalizations written from the wording of
the specification and claims, to be compared against the embedded source
functions above. -/

/-- Resolution rule as worded by the claim for the Normalizer: the first
PRESENT value wins, where an absent property is `undefined`. -/
def firstPresent (primary fallback : JSValue) : JSValue :=
  match primary with
  | .undef => fallback
  | v => v

/-- Canonical field types of the specification data model for a
`CanonicalRecord`: `msPlayed` a number or absent, the two names and `endTime`
strings or absent. -/
def wellTypedCanonical (c : CanonicalRecord) : Bool :=
  (match c.msPlayed with
    | .vnum _ => true
    | .undef => true
    | _ => false) &&
  (match c.trackName with
    | .vstr _ => true
    | .undef => true
    | _ => false) &&
  (match c.artistName with
    | .vstr _ => true
    | .undef => true
    | _ => false) &&
  (match c.endTime with
    | .vstr _ => true
    | .undef => true
    | _ => false)

/-- The four acceptance conditions of the Validity Filter claim, as worded:
`msPlayed` IS A NUMBER strictly greater than zero, `trackName` and
`artistName` are non-empty strings, `endTime` is a non-empty string that
parses to a valid point in time. -/
def validitySpec (env : DateEnv) (c : CanonicalRecord) : Bool :=
  (match c.msPlayed with
    | .vnum n => decide (0 < n)
    | _ => false) &&
  (match c.trackName with
    | .vstr s => s != ""
    | _ => false) &&
  (match c.artistName with
    | .vstr s => s != ""
    | _ => false) &&
  (match c.endTime with
    | .vstr s => s != "" && (env.parse s).isSome
    | _ => false)

/-- A raw record that supplies the four semantic fields under the current key
names only (the legacy keys are absent). -/
def currentNamesRecord (e a tn m : JSValue) : RawRecord :=
  { endTime := e, artistName := a, trackName := tn, msPlayed := m }

/-- A raw record that supplies the same four semantic fields under the legacy
key names only (the current keys are absent). -/
def legacyNamesRecord (e a tn m : JSValue) : RawRecord :=
  { ts := e
    master_metadata_album_artist_name := a
    master_metadata_track_name := tn
    ms_played := m }

/-- All records of a collection have a parseable `endTime` (the part of the
ValidatedRecord invariant the histogram bucket-count argument rests on). -/
def allDatesValid (env : DateEnv) (streams : List StreamRecord) : Prop :=
  ∀ r ∈ streams, (env.parse r.endTime).isSome

/-! Concrete inputs: the two-file scenario of the specification, and the
inputs used by witnesses and counterexamples. -/

/-- The ISO timestamp of the first scenario record; its time value is
1673776800000 ms (2023-01-15T10:00:00Z, a Sunday, 10:00 UTC). -/
def scenarioIso : String := "2023-01-15T10:00:00Z"

/-- A concrete date environment: it parses exactly the scenario timestamp,
runs in a UTC-like locale (`localTime` the identity) and renders month labels
as the identity. -/
def scenarioEnv : DateEnv :=
  { parse := fun s => if s = scenarioIso then some 1673776800000 else none
    localTime := fun t => t
    renderMonth := fun s => s }

/-- First scenario file record: legacy key names, 200000 ms. -/
def scenarioRawLegacy : RawRecord :=
  { ts := .vstr scenarioIso
    master_metadata_album_artist_name := .vstr "A"
    master_metadata_track_name := .vstr "T1"
    ms_played := .vnum 200000 }

/-- Second scenario file record: current key names, zero play time. -/
def scenarioRawCurrent : RawRecord :=
  { endTime := .vstr "2023-02-01 09:00"
    artistName := .vstr "B"
    trackName := .vstr "T2"
    msPlayed := .vnum 0 }

/-- The two scenario files, each a JSON array with one record. -/
def scenarioFiles : List FileData :=
  [FileData.records [scenarioRawLegacy], FileData.records [scenarioRawCurrent]]

/-- The canonical record the normalizer produces from the first scenario
record (the only one that survives the validity filter). -/
def scenarioCanon : CanonicalRecord :=
  { endTime := .vstr scenarioIso
    artistName := .vstr "A"
    trackName := .vstr "T1"
    msPlayed := .vnum 200000 }

/-- The surviving scenario record at the canonical field types. -/
def scenarioStream : StreamRecord :=
  { endTime := scenarioIso, artistName := "A", trackName := "T1", msPlayed := 200000 }

/-- Raw record refuting the "first present value" reading of the normalizer:
`msPlayed` is present with the value 0, `ms_played` is present with 200. -/
def presentZeroRaw : RawRecord :=
  { msPlayed := .vnum 0, ms_played := .vnum 200 }

/-- Date environment for the filter counterexample: it parses exactly the
string used as that record's `endTime`. -/
def boolMsEnv : DateEnv :=
  { parse := fun s => if s = "2023-01-15T10:00:00Z" then some 1673776800000 else none
    localTime := fun t => t
    renderMonth := fun s => s }

/-- Well-formed canonical record except that `msPlayed` is the JSON boolean
`true` (as produced by the normalizer from a raw record with a boolean
`msPlayed`). -/
def boolMsRecord : CanonicalRecord :=
  { endTime := .vstr "2023-01-15T10:00:00Z"
    artistName := .vstr "A"
    trackName := .vstr "T"
    msPlayed := .vbool true }

/-- Two validated records with distinct track names and equal summed play
time; the first-encountered name is not an array-index-like string, the
second one is. -/
def tieStreams : List StreamRecord :=
  [ { endTime := "e1", artistName := "a", trackName := "Purple Rain", msPlayed := 100 }
  , { endTime := "e2", artistName := "b", trackName := "1999", msPlayed := 100 } ]

/-- Track-name selector used by the Top-N counterexample and witness. -/
def trackNameKey (r : StreamRecord) : String := r.trackName

/-! Helper lemmas: the grouping accumulator. -/

theorem lookAcc_eq_none_iff (acc : List (String × Int)) (k : String) :
    lookAcc acc k = none ↔ k ∉ acc.map Prod.fst := by
  induction acc with
  | nil => simp [lookAcc]
  | cons x rest ih =>
    obtain ⟨k1, v⟩ := x
    by_cases h : k = k1 <;> simp [lookAcc, h, ih]

theorem mem_fst_addToAcc (acc : List (String × Int)) (k0 : String) (m : Int) (k : String) :
    k ∈ (addToAcc acc k0 m).map Prod.fst ↔ k ∈ acc.map Prod.fst ∨ k = k0 := by
  induction acc with
  | nil => simp [addToAcc]
  | cons x rest ih =>
    obtain ⟨k1, v⟩ := x
    by_cases h : k1 = k0 <;> simp [addToAcc, h, ih] <;> tauto

theorem nodup_fst_addToAcc (acc : List (String × Int)) (k0 : String) (m : Int)
    (h : (acc.map Prod.fst).Nodup) : ((addToAcc acc k0 m).map Prod.fst).Nodup := by
  induction acc with
  | nil => simp [addToAcc]
  | cons x rest ih =>
    obtain ⟨k1, v⟩ := x
    simp only [List.map_cons, List.nodup_cons] at h
    by_cases hk : k1 = k0
    · simp only [addToAcc, if_pos hk, List.map_cons, List.nodup_cons]
      exact h
    · simp only [addToAcc, if_neg hk, List.map_cons, List.nodup_cons]
      refine ⟨?_, ih h.2⟩
      rw [mem_fst_addToAcc]
      rintro (hm | he)
      · exact h.1 hm
      · exact hk he

theorem lookAcc_addToAcc_self (acc : List (String × Int)) (k : String) (m : Int) :
    lookAcc (addToAcc acc k m) k = some ((lookAcc acc k).getD 0 + m) := by
  induction acc with
  | nil => simp [addToAcc, lookAcc]
  | cons x rest ih =>
    obtain ⟨k1, v⟩ := x
    by_cases h : k1 = k
    · subst h; simp [addToAcc, lookAcc]
    · simp [addToAcc, lookAcc, h, Ne.symm h, ih]

theorem lookAcc_addToAcc_ne (acc : List (String × Int)) (k : String) (m : Int)
    (k2 : String) (h : k2 ≠ k) : lookAcc (addToAcc acc k m) k2 = lookAcc acc k2 := by
  induction acc with
  | nil => simp [addToAcc, lookAcc, h]
  | cons x rest ih =>
    obtain ⟨k1, v⟩ := x
    by_cases hk : k1 = k
    · subst hk; simp [addToAcc, lookAcc, h]
    · by_cases h2 : k2 = k1 <;> simp [addToAcc, lookAcc, hk, h2, ih]

theorem mem_assoc_iff_lookAcc (acc : List (String × Int))
    (hnd : (acc.map Prod.fst).Nodup) (k : String) (v : Int) :
    (k, v) ∈ acc ↔ lookAcc acc k = some v := by
  induction acc with
  | nil => simp [lookAcc]
  | cons x rest ih =>
    obtain ⟨k1, v1⟩ := x
    simp only [List.map_cons, List.nodup_cons] at hnd
    by_cases h : k = k1
    · subst h
      simp only [lookAcc, if_pos rfl, List.mem_cons]
      constructor
      · rintro (h | h)
        · cases h; rfl
        · exact absurd (List.mem_map_of_mem Prod.fst h) hnd.1
      · intro h
        left
        cases h
        rfl
    · simp [lookAcc, h, ih hnd.2]

theorem mem_fst_foldl_stepAcc (keyOf : α → Option String) (msOf : α → Int) :
    ∀ (l : List α) (acc : List (String × Int)) (k : String),
      (k ∈ (l.foldl (stepAcc keyOf msOf) acc).map Prod.fst ↔
        k ∈ acc.map Prod.fst ∨ ∃ r ∈ l, keyOf r = some k) := by
  intro l
  induction l with
  | nil => simp
  | cons x xs ih =>
    intro acc k
    rw [List.foldl_cons, ih]
    cases h : keyOf x with
    | none =>
      have hs : stepAcc keyOf msOf acc x = acc := by unfold stepAcc; rw [h]
      rw [hs]
      constructor
      · rintro (hm | ⟨r, hr, hk⟩)
        · exact Or.inl hm
        · exact Or.inr ⟨r, List.mem_cons_of_mem _ hr, hk⟩
      · rintro (hm | ⟨r, hr, hk⟩)
        · exact Or.inl hm
        · rcases List.mem_cons.mp hr with he | hr2
          · subst he; rw [h] at hk; cases hk
          · exact Or.inr ⟨r, hr2, hk⟩
    | some k0 =>
      have hs : stepAcc keyOf msOf acc x = addToAcc acc k0 (msOf x) := by
        unfold stepAcc; rw [h]
      rw [hs, mem_fst_addToAcc]
      constructor
      · rintro ((hm | he) | ⟨r, hr, hk⟩)
        · exact Or.inl hm
        · exact Or.inr ⟨x, List.mem_cons_self x xs, by rw [h, he]⟩
        · exact Or.inr ⟨r, List.mem_cons_of_mem _ hr, hk⟩
      · rintro (hm | ⟨r, hr, hk⟩)
        · exact Or.inl (Or.inl hm)
        · rcases List.mem_cons.mp hr with he | hr2
          · subst he
            rw [h] at hk
            exact Or.inl (Or.inr (Option.some.inj hk).symm)
          · exact Or.inr ⟨r, hr2, hk⟩

theorem nodup_fst_foldl_stepAcc (keyOf : α → Option String) (msOf : α → Int) :
    ∀ (l : List α) (acc : List (String × Int)),
      (acc.map Prod.fst).Nodup → ((l.foldl (stepAcc keyOf msOf) acc).map Prod.fst).Nodup := by
  intro l
  induction l with
  | nil => intro acc h; simpa using h
  | cons x xs ih =>
    intro acc h
    rw [List.foldl_cons]
    apply ih
    unfold stepAcc
    cases keyOf x with
    | none => exact h
    | some k0 => exact nodup_fst_addToAcc acc k0 _ h

theorem getD_lookAcc_foldl (keyOf : α → Option String) (msOf : α → Int) :
    ∀ (l : List α) (acc : List (String × Int)) (k : String),
      (lookAcc (l.foldl (stepAcc keyOf msOf) acc) k).getD 0 =
        (lookAcc acc k).getD 0 + ((l.filter (fun r => keyOf r == some k)).map msOf).sum := by
  intro l
  induction l with
  | nil => simp
  | cons x xs ih =>
    intro acc k
    rw [List.foldl_cons, ih, List.filter_cons]
    show _ = (lookAcc acc k).getD 0 + _
    by_cases h : keyOf x == some k
    · rw [if_pos h]
      have hx : keyOf x = some k := by simpa using h
      have : stepAcc keyOf msOf acc x = addToAcc acc k (msOf x) := by
        unfold stepAcc; rw [hx]
      rw [this, lookAcc_addToAcc_self]
      simp only [List.map_cons, List.sum_cons, Option.getD_some]
      ring
    · rw [if_neg h]
      congr 1
      unfold stepAcc
      cases hx : keyOf x with
      | none => rfl
      | some k0 =>
        have hne : k ≠ k0 := by
          intro he
          exact h (by simp [hx, he])
        rw [lookAcc_addToAcc_ne _ _ _ _ hne]

/-! Helper lemmas: characterization of the grouping reduce. -/

theorem nodup_fst_groupSum (keyOf : α → Option String) (msOf : α → Int) (l : List α) :
    ((groupSum keyOf msOf l).map Prod.fst).Nodup :=
  nodup_fst_foldl_stepAcc keyOf msOf l [] (by simp)

theorem mem_fst_groupSum (keyOf : α → Option String) (msOf : α → Int) (l : List α)
    (k : String) :
    k ∈ (groupSum keyOf msOf l).map Prod.fst ↔ ∃ r ∈ l, keyOf r = some k := by
  rw [groupSum, mem_fst_foldl_stepAcc]
  simp

theorem lookAcc_groupSum (keyOf : α → Option String) (msOf : α → Int) (l : List α)
    (k : String) (hex : ∃ r ∈ l, keyOf r = some k) :
    lookAcc (groupSum keyOf msOf l) k =
      some (((l.filter (fun r => keyOf r == some k)).map msOf).sum) := by
  have hmem : k ∈ (groupSum keyOf msOf l).map Prod.fst :=
    (mem_fst_groupSum keyOf msOf l k).2 hex
  cases hl : lookAcc (groupSum keyOf msOf l) k with
  | none =>
    rw [lookAcc_eq_none_iff] at hl
    exact absurd hmem hl
  | some w =>
    have hg := getD_lookAcc_foldl keyOf msOf l [] k
    rw [show l.foldl (stepAcc keyOf msOf) ([] : List (String × Int)) =
        groupSum keyOf msOf l from rfl, hl] at hg
    simp [lookAcc] at hg
    rw [hg]

theorem mem_groupSum_iff (keyOf : α → Option String) (msOf : α → Int) (l : List α)
    (k : String) (v : Int) :
    (k, v) ∈ groupSum keyOf msOf l ↔
      (∃ r ∈ l, keyOf r = some k) ∧
        v = ((l.filter (fun r => keyOf r == some k)).map msOf).sum := by
  rw [mem_assoc_iff_lookAcc _ (nodup_fst_groupSum keyOf msOf l)]
  constructor
  · intro h
    have hmem : k ∈ (groupSum keyOf msOf l).map Prod.fst := by
      by_contra hc
      rw [← lookAcc_eq_none_iff] at hc
      rw [hc] at h
      cases h
    have hex := (mem_fst_groupSum keyOf msOf l k).1 hmem
    refine ⟨hex, ?_⟩
    rw [lookAcc_groupSum keyOf msOf l k hex] at h
    exact (Option.some.inj h).symm
  · rintro ⟨hex, hv⟩
    rw [lookAcc_groupSum keyOf msOf l k hex, hv]

theorem length_groupSum (keyOf : α → Option String) (msOf : α → Int) (l : List α) :
    (groupSum keyOf msOf l).length = (l.filterMap keyOf).dedup.length := by
  have hperm : ((groupSum keyOf msOf l).map Prod.fst).Perm (l.filterMap keyOf).dedup := by
    rw [List.perm_ext_iff_of_nodup (nodup_fst_groupSum keyOf msOf l) (List.nodup_dedup _)]
    intro a
    rw [mem_fst_groupSum, List.mem_dedup, List.mem_filterMap]
  have hlen := hperm.length_eq
  simpa using hlen

/-! Helper lemmas: the insertion sorts. -/

theorem insertEntryDesc_perm (x : String × Int) (l : List (String × Int)) :
    (insertEntryDesc x l).Perm (x :: l) := by
  induction l with
  | nil => simp [insertEntryDesc]
  | cons y ys ih =>
    unfold insertEntryDesc
    by_cases h : x.2 ≤ y.2
    · rw [if_pos h]
      exact (List.Perm.cons y ih).trans (List.Perm.swap x y ys)
    · rw [if_neg h]

theorem insertAscIdx_perm (x : String × Int) (l : List (String × Int)) :
    (insertAscIdx x l).Perm (x :: l) := by
  induction l with
  | nil => simp [insertAscIdx]
  | cons y ys ih =>
    unfold insertAscIdx
    by_cases h : idxVal y.1 ≤ idxVal x.1
    · rw [if_pos h]
      exact (List.Perm.cons y ih).trans (List.Perm.swap x y ys)
    · rw [if_neg h]

theorem insertKeyAsc_perm (x : String × Int) (l : List (String × Int)) :
    (insertKeyAsc x l).Perm (x :: l) := by
  induction l with
  | nil => simp [insertKeyAsc]
  | cons y ys ih =>
    unfold insertKeyAsc
    by_cases h : y.1 < x.1
    · rw [if_pos h]
      exact (List.Perm.cons y ih).trans (List.Perm.swap x y ys)
    · rw [if_neg h]

theorem foldl_insert_perm
    (ins : (String × Int) → List (String × Int) → List (String × Int))
    (hins : ∀ x l, (ins x l).Perm (x :: l)) :
    ∀ (l acc : List (String × Int)),
      (l.foldl (fun acc x => ins x acc) acc).Perm (l ++ acc) := by
  intro l
  induction l with
  | nil => intro acc; simp
  | cons x xs ih =>
    intro acc
    rw [List.foldl_cons]
    refine (ih (ins x acc)).trans ?_
    refine (List.Perm.append_left xs (hins x acc)).trans ?_
    exact List.perm_middle

theorem sortEntriesDesc_perm (l : List (String × Int)) : (sortEntriesDesc l).Perm l := by
  have h := foldl_insert_perm insertEntryDesc insertEntryDesc_perm l []
  simpa [sortEntriesDesc] using h

theorem sortByKeyAsc_perm (l : List (String × Int)) : (sortByKeyAsc l).Perm l := by
  have h := foldl_insert_perm insertKeyAsc insertKeyAsc_perm l []
  simpa [sortByKeyAsc] using h

theorem objectEntriesOrder_perm (l : List (String × Int)) :
    (objectEntriesOrder l).Perm l := by
  unfold objectEntriesOrder
  refine (List.Perm.append ?_ (List.Perm.refl _)).trans
    (List.filter_append_perm (fun e => isArrayIndexKey e.1) l)
  have h := foldl_insert_perm insertAscIdx insertAscIdx_perm
    (l.filter (fun e => isArrayIndexKey e.1)) []
  simpa using h

theorem pairwise_insertEntryDesc (x : String × Int) (l : List (String × Int))
    (h : List.Pairwise (fun a b => b.2 ≤ a.2) l) :
    List.Pairwise (fun a b => b.2 ≤ a.2) (insertEntryDesc x l) := by
  induction l with
  | nil => simp [insertEntryDesc]
  | cons y ys ih =>
    rw [List.pairwise_cons] at h
    unfold insertEntryDesc
    by_cases hxy : x.2 ≤ y.2
    · rw [if_pos hxy, List.pairwise_cons]
      refine ⟨?_, ih h.2⟩
      intro z hz
      rcases List.mem_cons.mp ((insertEntryDesc_perm x ys).mem_iff.mp hz) with he | hm
      · exact he ▸ hxy
      · exact h.1 z hm
    · rw [if_neg hxy, List.pairwise_cons]
      push_neg at hxy
      constructor
      · intro z hz
        rcases List.mem_cons.mp hz with he | hm
        · exact he ▸ le_of_lt hxy
        · exact le_trans (h.1 z hm) (le_of_lt hxy)
      · rw [List.pairwise_cons]
        exact h

theorem pairwise_sortEntriesDesc (l : List (String × Int)) :
    List.Pairwise (fun a b => b.2 ≤ a.2) (sortEntriesDesc l) := by
  suffices h : ∀ (m acc : List (String × Int)),
      List.Pairwise (fun a b => b.2 ≤ a.2) acc →
      List.Pairwise (fun a b => b.2 ≤ a.2)
        (m.foldl (fun acc x => insertEntryDesc x acc) acc) by
    exact h l [] (by simp)
  intro m
  induction m with
  | nil => intro acc hacc; simpa using hacc
  | cons x xs ih =>
    intro acc hacc
    rw [List.foldl_cons]
    exact ih _ (pairwise_insertEntryDesc x acc hacc)

theorem filter_insertEntryDesc (x : String × Int) (l : List (String × Int)) (v : Int)
    (h : List.Pairwise (fun a b => b.2 ≤ a.2) l) :
    (insertEntryDesc x l).filter (fun e => e.2 == v) =
      l.filter (fun e => e.2 == v) ++ (if x.2 = v then [x] else []) := by
  induction l with
  | nil => by_cases hx : x.2 = v <;> simp [insertEntryDesc, hx]
  | cons y ys ih =>
    rw [List.pairwise_cons] at h
    unfold insertEntryDesc
    by_cases hxy : x.2 ≤ y.2
    · rw [if_pos hxy, List.filter_cons, List.filter_cons, ih h.2]
      by_cases hy : y.2 = v <;> simp [hy]
    · rw [if_neg hxy]
      push_neg at hxy
      by_cases hx : x.2 = v
      · have hnil : (y :: ys).filter (fun e => e.2 == v) = [] := by
          rw [List.filter_eq_nil_iff]
          intro a ha
          have ha2 : a.2 ≤ y.2 := by
            rcases List.mem_cons.mp ha with he | hm
            · exact he ▸ le_refl _
            · exact h.1 a hm
          have halt : a.2 < v := lt_of_le_of_lt ha2 (hx ▸ hxy)
          simp only [beq_iff_eq]
          exact ne_of_lt halt
        have hys : ys.filter (fun e => e.2 == v) = [] := by
          rw [List.filter_eq_nil_iff] at hnil ⊢
          intro a ha
          exact hnil a (List.mem_cons_of_mem _ ha)
        have hyn : ¬((y.2 == v) = true) :=
          List.filter_eq_nil_iff.mp hnil y (List.mem_cons_self y ys)
        simp [List.filter_cons, hx, hys, hyn]
      · simp [List.filter_cons, hx]

theorem filter_foldl_insertEntryDesc (v : Int) :
    ∀ (l acc : List (String × Int)),
      List.Pairwise (fun a b => b.2 ≤ a.2) acc →
      (l.foldl (fun acc x => insertEntryDesc x acc) acc).filter (fun e => e.2 == v) =
        acc.filter (fun e => e.2 == v) ++ l.filter (fun e => e.2 == v) := by
  intro l
  induction l with
  | nil => intro acc h; simp
  | cons x xs ih =>
    intro acc h
    rw [List.foldl_cons, ih _ (pairwise_insertEntryDesc x acc h),
      filter_insertEntryDesc x acc v h, List.filter_cons]
    by_cases hx : x.2 = v <;> simp [hx]

theorem filter_sortEntriesDesc (l : List (String × Int)) (v : Int) :
    (sortEntriesDesc l).filter (fun e => e.2 == v) = l.filter (fun e => e.2 == v) := by
  have h := filter_foldl_insertEntryDesc v l [] (by simp)
  simpa [sortEntriesDesc] using h

theorem pairwise_insertKeyAsc (x : String × Int) (l : List (String × Int))
    (h : List.Pairwise (fun a b => a.1 ≤ b.1) l) :
    List.Pairwise (fun a b => a.1 ≤ b.1) (insertKeyAsc x l) := by
  induction l with
  | nil => simp [insertKeyAsc]
  | cons y ys ih =>
    rw [List.pairwise_cons] at h
    unfold insertKeyAsc
    by_cases hxy : y.1 < x.1
    · rw [if_pos hxy, List.pairwise_cons]
      refine ⟨?_, ih h.2⟩
      intro z hz
      rcases List.mem_cons.mp ((insertKeyAsc_perm x ys).mem_iff.mp hz) with he | hm
      · exact he ▸ le_of_lt hxy
      · exact h.1 z hm
    · rw [if_neg hxy, List.pairwise_cons]
      have hle : x.1 ≤ y.1 := le_of_not_lt hxy
      constructor
      · intro z hz
        rcases List.mem_cons.mp hz with he | hm
        · exact he ▸ hle
        · exact le_trans hle (h.1 z hm)
      · rw [List.pairwise_cons]
        exact h

theorem pairwise_sortByKeyAsc (l : List (String × Int)) :
    List.Pairwise (fun a b => a.1 ≤ b.1) (sortByKeyAsc l) := by
  suffices h : ∀ (m acc : List (String × Int)),
      List.Pairwise (fun a b => a.1 ≤ b.1) acc →
      List.Pairwise (fun a b => a.1 ≤ b.1)
        (m.foldl (fun acc x => insertKeyAsc x acc) acc) by
    exact h l [] (by simp)
  intro m
  induction m with
  | nil => intro acc hacc; simpa using hacc
  | cons x xs ih =>
    intro acc hacc
    rw [List.foldl_cons]
    exact ih _ (pairwise_insertKeyAsc x acc hacc)

/-! Helper lemmas: rounding, date-field bounds, histogram counters. -/

theorem roundDiv_eq_round (x : Int) (d : Nat) (hd : 0 < d) :
    roundDiv x d = round ((x : ℚ) / (d : ℚ)) := by
  unfold roundDiv
  rw [round_eq]
  have harg : (x : ℚ) / (d : ℚ) + 1 / 2 =
      ((2 * x + (d : Int) : Int) : ℚ) / (((2 * d : Nat) : ℕ) : ℚ) := by
    have hdq : ((d : ℚ)) ≠ 0 := by positivity
    push_cast
    field_simp
    ring
  rw [harg, Rat.floor_intCast_div_natCast,
    Int.fdiv_eq_ediv _ (by positivity : (0 : Int) ≤ 2 * (d : Int))]
  congr 1

theorem emod_toNat_lt (y : Int) (b : Nat) (hb : 0 < b) : (y.emod b).toNat < b := by
  have h1 : 0 ≤ y.emod b := Int.emod_nonneg y (by exact_mod_cast hb.ne')
  have h2 : y.emod b < b := Int.emod_lt_of_pos y (by exact_mod_cast hb)
  exact (Int.toNat_lt h1).2 h2

theorem hourIdx_lt (env : DateEnv) (t : Int) : hourIdx env t < 24 :=
  emod_toNat_lt _ 24 (by norm_num)

theorem dayIdx_lt (env : DateEnv) (t : Int) : dayIdx env t < 7 :=
  emod_toNat_lt _ 7 (by norm_num)

theorem length_bumpAt (l : List Nat) (i : Nat) : (bumpAt l i).length = l.length :=
  List.length_set l i _

theorem sum_bumpAt (l : List Nat) (i : Nat) (h : i < l.length) :
    (bumpAt l i).sum = l.sum + 1 := by
  induction l generalizing i with
  | nil => simp at h
  | cons a as ih =>
    cases i with
    | zero =>
      unfold bumpAt
      rw [List.getD_cons_zero, List.set_cons_zero, List.sum_cons, List.sum_cons]
      omega
    | succ n =>
      have hn : n < as.length := by simpa using h
      have hih := ih n hn
      unfold bumpAt at hih ⊢
      rw [List.getD_cons_succ, List.set_cons_succ, List.sum_cons, List.sum_cons, hih]
      omega

theorem length_foldl_hist (env : DateEnv) (idxOf : Int → Nat) :
    ∀ (streams : List StreamRecord) (cs : List Nat),
      (streams.foldl
        (fun cs r =>
          match env.parse r.endTime with
          | some t => bumpAt cs (idxOf t)
          | none => cs) cs).length = cs.length := by
  intro streams
  induction streams with
  | nil => intro cs; rfl
  | cons r rs ih =>
    intro cs
    rw [List.foldl_cons, ih]
    cases env.parse r.endTime with
    | some t => exact length_bumpAt cs (idxOf t)
    | none => rfl

theorem sum_foldl_hist (env : DateEnv) (idxOf : Int → Nat) (bound : Nat)
    (hidx : ∀ t, idxOf t < bound) :
    ∀ (streams : List StreamRecord) (cs : List Nat), cs.length = bound →
      (∀ r ∈ streams, (env.parse r.endTime).isSome) →
      (streams.foldl
        (fun cs r =>
          match env.parse r.endTime with
          | some t => bumpAt cs (idxOf t)
          | none => cs) cs).sum = cs.sum + streams.length := by
  intro streams
  induction streams with
  | nil =>
    intro cs hlen hval
    simp
  | cons r rs ih =>
    intro cs hlen hval
    rw [List.foldl_cons]
    cases hp : env.parse r.endTime with
    | none => exact absurd (hval r (List.mem_cons_self r rs)) (by simp [hp])
    | some t =>
      simp only [hp]
      have hlen2 : (bumpAt cs (idxOf t)).length = bound := by
        rw [length_bumpAt]
        exact hlen
      rw [ih (bumpAt cs (idxOf t)) hlen2
          (fun r2 hr2 => hval r2 (List.mem_cons_of_mem _ hr2)),
        sum_bumpAt cs (idxOf t) (by rw [hlen]; exact hidx t), List.length_cons]
      omega

/-! Helper lemmas: bridges between the embedded functions and the
specification-side formulations. -/

theorem filterMap_topKeyOf (key : StreamRecord → String) (streams : List StreamRecord) :
    streams.filterMap (topKeyOf key) = (streams.map key).filter (fun s => s != "") := by
  induction streams with
  | nil => rfl
  | cons r rs ih =>
    rw [List.filterMap_cons, List.map_cons, List.filter_cons]
    by_cases h : key r = ""
    · have hh : topKeyOf key r = none := by
        unfold topKeyOf
        rw [if_pos h]
      simp [hh, h, ih]
    · have hh : topKeyOf key r = some (key r) := by
        unfold topKeyOf
        rw [if_neg h]
      simp [hh, h, ih]

theorem filter_topKeyOf_beq (key : StreamRecord → String) (k : String) (hk : k ≠ "")
    (streams : List StreamRecord) :
    streams.filter (fun r => topKeyOf key r == some k) =
      streams.filter (fun r => key r == k) := by
  apply List.filter_congr
  intro r _
  unfold topKeyOf
  by_cases h : key r = ""
  · simp [h, beq_iff_eq, Ne.symm hk]
  · simp [h]

theorem pairwise_lt_of_le_nodup (l : List (String × Int))
    (hle : List.Pairwise (fun a b => a.1 ≤ b.1) l)
    (hnd : (l.map Prod.fst).Nodup) :
    List.Pairwise (fun a b => a.1 < b.1) l := by
  have hne : List.Pairwise (fun a b : String × Int => a.1 ≠ b.1) l :=
    List.pairwise_map.mp hnd
  exact (hle.and hne).imp (fun h => lt_of_le_of_ne h.1 h.2)

theorem mem_topEntries_groupSum (streams : List StreamRecord)
    (key : StreamRecord → String) (count : Nat) (p : String × Int)
    (hp : p ∈ topEntries streams key count) :
    p ∈ groupSum (topKeyOf key) (fun r => r.msPlayed) streams := by
  have h1 : p ∈ sortEntriesDesc (topEntriesAll streams key) :=
    List.take_subset _ _ hp
  have h2 : p ∈ topEntriesAll streams key := (sortEntriesDesc_perm _).mem_iff.mp h1
  exact (objectEntriesOrder_perm _).mem_iff.mp h2

theorem mem_monthlyBuckets_groupSum (env : DateEnv) (streams : List StreamRecord)
    (p : String × Int) (hp : p ∈ monthlyBuckets env streams) :
    p ∈ groupSum (fun r => some (monthKeyOf env r)) (fun r => r.msPlayed) streams :=
  (sortByKeyAsc_perm _).mem_iff.mp hp

/-! Claim theorems. -/

/-- Claim C1, counterexample: the Normalizer does not take the first PRESENT
value.  For a raw record where `msPlayed` is present with the value 0 and
`ms_played` is present with 200, the canonical `msPlayed` is 200 — the
JavaScript `||` skips the present-but-falsy 0 — while the first present value
is 0. -/
theorem c1_counterexample :
    (standardizeStreamData presentZeroRaw).msPlayed = JSValue.vnum 200 ∧
      firstPresent presentZeroRaw.msPlayed presentZeroRaw.ms_played = JSValue.vnum 0 ∧
      (standardizeStreamData presentZeroRaw).msPlayed ≠
        firstPresent presentZeroRaw.msPlayed presentZeroRaw.ms_played := by
  decide

/-- Claim C1, amended: for every RawRecord the Normalizer totally produces
exactly one CanonicalRecord and never fails; each canonical field is resolved
by taking the first TRUTHY value in the stated resolution order — the
current-name field wins when it is truthy, otherwise the legacy field value is
used as-is; in particular when neither source field is present the canonical
field is undefined/absent. -/
theorem c1_normalizer_resolution (s : RawRecord) :
    (s.endTime.truthy = true → (standardizeStreamData s).endTime = s.endTime) ∧
    (s.endTime.truthy = false → (standardizeStreamData s).endTime = s.ts) ∧
    (s.artistName.truthy = true → (standardizeStreamData s).artistName = s.artistName) ∧
    (s.artistName.truthy = false →
      (standardizeStreamData s).artistName = s.master_metadata_album_artist_name) ∧
    (s.trackName.truthy = true → (standardizeStreamData s).trackName = s.trackName) ∧
    (s.trackName.truthy = false →
      (standardizeStreamData s).trackName = s.master_metadata_track_name) ∧
    (s.msPlayed.truthy = true → (standardizeStreamData s).msPlayed = s.msPlayed) ∧
    (s.msPlayed.truthy = false → (standardizeStreamData s).msPlayed = s.ms_played) := by
  unfold standardizeStreamData jsOr
  refine ⟨fun h => ?_, fun h => ?_, fun h => ?_, fun h => ?_, fun h => ?_, fun h => ?_,
    fun h => ?_, fun h => ?_⟩ <;> simp [h]

/-- Witness for the amended Normalizer claim: the legacy scenario record
resolves every field from the legacy names, the current scenario record
resolves `endTime` from the current name. -/
theorem c1_normalizer_resolution_witness :
    (standardizeStreamData scenarioRawLegacy).endTime = scenarioRawLegacy.ts ∧
      (standardizeStreamData scenarioRawCurrent).endTime = scenarioRawCurrent.endTime :=
  ⟨(c1_normalizer_resolution scenarioRawLegacy).2.1 (by decide),
    (c1_normalizer_resolution scenarioRawCurrent).1 (by decide)⟩

/-- Claim C2, counterexample: two raw records carrying the same semantic
values — one under the current key names, one under the legacy key names —
normalize to different CanonicalRecords when a value is falsy: with
`msPlayed = 0` the current-shape record normalizes to an absent `msPlayed`
(`0 || undefined` is `undefined`) while the legacy-shape record keeps the 0
(`undefined || 0` is `0`). -/
theorem c2_counterexample :
    standardizeStreamData
        (currentNamesRecord (JSValue.vstr "2023-02-01 09:00") (JSValue.vstr "B")
          (JSValue.vstr "T2") (JSValue.vnum 0)) ≠
      standardizeStreamData
        (legacyNamesRecord (JSValue.vstr "2023-02-01 09:00") (JSValue.vstr "B")
          (JSValue.vstr "T2") (JSValue.vnum 0)) := by
  decide

/-- Claim C2, amended: schema equivalence holds for TRUTHY semantic values:
whenever the four shared values are truthy, the record supplying them under
the current names and the record supplying them under the legacy names
normalize to identical CanonicalRecords. -/
theorem c2_schema_equivalence (e a tn m : JSValue) (he : e.truthy = true)
    (ha : a.truthy = true) (ht : tn.truthy = true) (hm : m.truthy = true) :
    standardizeStreamData (currentNamesRecord e a tn m) =
      standardizeStreamData (legacyNamesRecord e a tn m) := by
  unfold standardizeStreamData currentNamesRecord legacyNamesRecord jsOr
  simp [he, ha, ht, hm, show JSValue.truthy JSValue.undef = false from rfl]

/-- Witness for the amended schema-equivalence claim at the scenario values. -/
theorem c2_schema_equivalence_witness :
    standardizeStreamData
        (currentNamesRecord (JSValue.vstr scenarioIso) (JSValue.vstr "A")
          (JSValue.vstr "T1") (JSValue.vnum 200000)) =
      standardizeStreamData
        (legacyNamesRecord (JSValue.vstr scenarioIso) (JSValue.vstr "A")
          (JSValue.vstr "T1") (JSValue.vnum 200000)) :=
  c2_schema_equivalence _ _ _ _ (by decide) (by decide) (by decide) (by decide)

/-- Claim C3, counterexample: the filter is not an iff with the claimed typed
conditions over every CanonicalRecord.  A record whose `msPlayed` is the JSON
boolean `true` (not a number) passes the code filter — JavaScript coerces
`true > 0` to `1 > 0` — while the claimed conditions reject it. -/
theorem c3_counterexample :
    validStream boolMsEnv boolMsRecord = true ∧
      validitySpec boolMsEnv boolMsRecord = false := by
  decide

/-- Claim C3, amended: for every CanonicalRecord whose fields are of the
canonical types (number-or-absent `msPlayed`, string-or-absent names and
`endTime`), the side-effect-free filter accepts the record exactly when
`msPlayed` is a number strictly greater than zero, `trackName` and
`artistName` are non-empty strings, and `endTime` is a non-empty string that
parses to a valid point in time; no error is thrown in any case. -/
theorem c3_filter_characterization (env : DateEnv) (c : CanonicalRecord)
    (h : wellTypedCanonical c = true) :
    validStream env c = true ↔ validitySpec env c = true := by
  obtain ⟨e, a, tn, m⟩ := c
  simp only [wellTypedCanonical, Bool.and_eq_true] at h
  obtain ⟨⟨⟨hm, htn⟩, ha⟩, he⟩ := h
  cases e <;> cases a <;> cases tn <;> cases m <;>
    simp_all [validStream, validitySpec, jsGtZero, JSValue.toNumber, JSValue.truthy,
      newDateValue, and_assoc]

/-- Witness for the amended filter claim: the scenario canonical record is
well-typed and accepted on both sides. -/
theorem c3_filter_characterization_witness :
    validitySpec scenarioEnv scenarioCanon = true :=
  (c3_filter_characterization scenarioEnv scenarioCanon (by decide)).mp (by decide)

/-- Claim C6: a JSON parse failure on any file in the batch makes the whole
run terminate with the parse-failure outcome; nothing accumulated from
sibling files survives — the outcome carries no data and no aggregation is
performed. -/
theorem c6_parse_failure_aborts (env : DateEnv) (files : List FileData)
    (h : FileData.invalid ∈ files) :
    handleFileProcessing env files = Outcome.parseError := by
  have hnone : readAllStreams files = none := by
    induction files with
    | nil => cases h
    | cons f fs ih =>
      cases f with
      | invalid => rfl
      | nonArray =>
        have hf : FileData.invalid ∈ fs := by
          rcases List.mem_cons.mp h with he | hm
          · cases he
          · exact hm
        show readAllStreams fs = none
        exact ih hf
      | records rs =>
        have hf : FileData.invalid ∈ fs := by
          rcases List.mem_cons.mp h with he | hm
          · cases he
          · exact hm
        show (readAllStreams fs).map _ = none
        rw [ih hf]
        rfl
  have hne : files.length ≠ 0 := by
    cases files with
    | nil => cases h
    | cons f fs => simp
  unfold handleFileProcessing
  rw [if_neg hne, hnone]

/-- Witness for the parse-failure claim: a batch whose first file holds the
scenario record and whose second file is malformed aborts with `parseError`. -/
theorem c6_parse_failure_aborts_witness :
    handleFileProcessing scenarioEnv
        [FileData.records [scenarioRawLegacy], FileData.invalid] =
      Outcome.parseError :=
  c6_parse_failure_aborts scenarioEnv _ (by decide)

/-- Claim C7, counterexample: an empty file list and a batch of files that
parse but contribute zero records do NOT reach one common EmptyInput outcome —
the code takes two different branches with two different messages, so the
claimed single outcome with exactly one message does not exist. -/
theorem c7_counterexample :
    handleFileProcessing scenarioEnv [] = Outcome.noFilesSelected ∧
      handleFileProcessing scenarioEnv [FileData.records []] = Outcome.noStreamingData ∧
      handleFileProcessing scenarioEnv [] ≠
        handleFileProcessing scenarioEnv [FileData.records []] ∧
      outcomeMessage Outcome.noFilesSelected ≠ outcomeMessage Outcome.noStreamingData := by
  decide

/-- Claim C7, amended: an empty file list yields its own no-files outcome and
message; a nonempty batch that parses but accumulates zero raw records yields
the EmptyInput outcome (`noStreamingData`); raw records that all fail
normalization-plus-filtering yield the distinct NoValidRecords outcome; the
three outcomes are pairwise distinct, each maps to exactly one distinct
message, and none of them carries views. -/
theorem c7_empty_outcomes :
    (∀ env : DateEnv, handleFileProcessing env [] = Outcome.noFilesSelected) ∧
    (∀ (env : DateEnv) (files : List FileData), files ≠ [] →
      readAllStreams files = some [] →
      handleFileProcessing env files = Outcome.noStreamingData) ∧
    (∀ (env : DateEnv) (files : List FileData) (allStreams : List RawRecord),
      readAllStreams files = some allStreams → allStreams ≠ [] →
      (allStreams.map standardizeStreamData).filter (fun s => validStream env s) = [] →
      handleFileProcessing env files = Outcome.noValidRecords) ∧
    (outcomeMessage Outcome.noFilesSelected ≠ outcomeMessage Outcome.noStreamingData ∧
      outcomeMessage Outcome.noFilesSelected ≠ outcomeMessage Outcome.noValidRecords ∧
      outcomeMessage Outcome.noStreamingData ≠ outcomeMessage Outcome.noValidRecords) ∧
    (∀ vs, Outcome.noFilesSelected ≠ Outcome.success vs) ∧
    (∀ vs, Outcome.noStreamingData ≠ Outcome.success vs) ∧
    (∀ vs, Outcome.noValidRecords ≠ Outcome.success vs) := by
  refine ⟨?_, ?_, ?_, by decide, ?_, ?_, ?_⟩
  · intro env
    rfl
  · intro env files hne hra
    have hlen : files.length ≠ 0 := by
      cases files with
      | nil => exact absurd rfl hne
      | cons f fs => simp
    unfold handleFileProcessing
    rw [if_neg hlen, hra]
    rfl
  · intro env files allStreams hra hne hfil
    have hlen : files.length ≠ 0 := by
      cases files with
      | nil =>
        injection hra with hx
        exact absurd hx.symm hne
      | cons f fs => simp
    unfold handleFileProcessing
    rw [if_neg hlen, hra]
    have hlen2 : (allStreams.map standardizeStreamData).length > 0 := by
      rw [List.length_map]
      exact List.length_pos.mpr hne
    show (if (allStreams.map standardizeStreamData).length > 0 then
        displayDashboard
          ((allStreams.map standardizeStreamData).filter (fun s => validStream env s))
      else Outcome.noStreamingData) = Outcome.noValidRecords
    rw [if_pos hlen2]
    unfold displayDashboard
    rw [hfil]
    rfl
  · intro vs h
    cases h
  · intro vs h
    cases h
  · intro vs h
    cases h

/-- Witness for the amended empty-outcome claim: a file holding `[]` reports
`noStreamingData`; a file whose only record fails validation reports
`noValidRecords`. -/
theorem c7_empty_outcomes_witness :
    handleFileProcessing scenarioEnv [FileData.records []] = Outcome.noStreamingData ∧
      handleFileProcessing scenarioEnv [FileData.records [scenarioRawCurrent]] =
        Outcome.noValidRecords :=
  ⟨c7_empty_outcomes.2.1 scenarioEnv [FileData.records []] (by decide) (by decide),
    c7_empty_outcomes.2.2.1 scenarioEnv [FileData.records [scenarioRawCurrent]]
      [scenarioRawCurrent] (by decide) (by decide) (by decide)⟩

/-- Claim C9: over any record collection the Summary Calculator reports the
collection size as total plays; total minutes as the summed milliseconds
divided by 60000 and rounded to the nearest integer; total hours as the
ALREADY-ROUNDED minute total divided by 60 and rounded to 1 decimal place; and
the numbers of distinct non-empty artist and track names. -/
theorem c9_summary_stats (streams : List StreamRecord) :
    (displaySummaryStats streams).plays = streams.length ∧
    (displaySummaryStats streams).minutes =
      round ((((streams.map (fun r => r.msPlayed)).sum : Int) : ℚ) / 60000) ∧
    (displaySummaryStats streams).hours =
      (round (((displaySummaryStats streams).minutes : ℚ) / 60 * 10) : ℚ) / 10 ∧
    (displaySummaryStats streams).uniqueArtists =
      ((streams.map (fun r => r.artistName)).filter (fun s => s != "")).toFinset.card ∧
    (displaySummaryStats streams).uniqueSongs =
      ((streams.map (fun r => r.trackName)).filter (fun s => s != "")).toFinset.card := by
  refine ⟨rfl, ?_, ?_, ?_, ?_⟩
  · show roundDiv ((streams.map (fun r => r.msPlayed)).sum) 60000 = _
    rw [roundDiv_eq_round _ _ (by norm_num)]
    norm_num
  · show ((roundDiv (10 * (displaySummaryStats streams).minutes) 60 : Int) : ℚ) / 10 = _
    rw [roundDiv_eq_round _ 60 (by norm_num)]
    have harg : (((10 * (displaySummaryStats streams).minutes : Int)) : ℚ) / ((60 : ℕ) : ℚ) =
        (((displaySummaryStats streams).minutes : Int) : ℚ) / 60 * 10 := by
      push_cast
      ring
    rw [harg]
  · show ((streams.map (fun r => r.artistName)).filter (fun s => s != "")).dedup.length = _
    rw [List.card_toFinset]
  · show ((streams.map (fun r => r.trackName)).filter (fun s => s != "")).dedup.length = _
    rw [List.card_toFinset]

/-- Claim C10: for every record accepted by the validity filter, `endTime`
has a valid time value, and the hour index and day index the histogram
functions compute from it are within the 24 and 7 slots — the unguarded
array increments stay in bounds under the filter precondition. -/
theorem c10_histogram_index_bounds (env : DateEnv) (c : CanonicalRecord)
    (h : validStream env c = true) :
    ∃ t, newDateValue env c.endTime = some t ∧ hourIdx env t < 24 ∧ dayIdx env t < 7 := by
  have hsome : (newDateValue env c.endTime).isSome = true := by
    unfold validStream at h
    simp only [Bool.and_eq_true] at h
    exact h.2
  obtain ⟨t, ht⟩ := Option.isSome_iff_exists.mp hsome
  exact ⟨t, ht, hourIdx_lt env t, dayIdx_lt env t⟩

/-- Witness for the index-bounds claim at the scenario canonical record. -/
theorem c10_histogram_index_bounds_witness :
    ∃ t, newDateValue scenarioEnv scenarioCanon.endTime = some t ∧
      hourIdx scenarioEnv t < 24 ∧ dayIdx scenarioEnv t < 7 :=
  c10_histogram_index_bounds scenarioEnv scenarioCanon (by decide)

/-- Claim C8: over any record collection whose dates all parse (and in
particular over the empty collection), the hour histogram has exactly the 24
labels "0:00" through "23:00" and 24 counters, the day histogram has exactly
the 7 labels Sun through Sat (index 0 = Sunday) and 7 counters, and in each
histogram the counters sum to the number of records. -/
theorem c8_histograms (env : DateEnv) (streams : List StreamRecord)
    (hval : ∀ r ∈ streams, (env.parse r.endTime).isSome) :
    (getHourlyActivity env streams).labels =
      ["0:00", "1:00", "2:00", "3:00", "4:00", "5:00", "6:00", "7:00", "8:00", "9:00",
        "10:00", "11:00", "12:00", "13:00", "14:00", "15:00", "16:00", "17:00",
        "18:00", "19:00", "20:00", "21:00", "22:00", "23:00"] ∧
    (hourlyCountsOf env streams).length = 24 ∧
    (hourlyCountsOf env streams).sum = streams.length ∧
    (getHourlyActivity env streams).data =
      (hourlyCountsOf env streams).map (fun n => (n : ℚ)) ∧
    (getDailyActivity env streams).labels =
      ["Sun", "Mon", "Tue", "Wed", "Thu", "Fri", "Sat"] ∧
    (dailyCountsOf env streams).length = 7 ∧
    (dailyCountsOf env streams).sum = streams.length ∧
    (getDailyActivity env streams).data =
      (dailyCountsOf env streams).map (fun n => (n : ℚ)) := by
  refine ⟨by rfl, ?_, ?_, rfl, rfl, ?_, ?_, rfl⟩
  · have h := length_foldl_hist env (hourIdx env) streams (List.replicate 24 0)
    rw [List.length_replicate] at h
    exact h
  · have h := sum_foldl_hist env (hourIdx env) 24 (hourIdx_lt env) streams
      (List.replicate 24 0) (List.length_replicate 24 0) hval
    simpa using h
  · have h := length_foldl_hist env (dayIdx env) streams (List.replicate 7 0)
    rw [List.length_replicate] at h
    exact h
  · have h := sum_foldl_hist env (dayIdx env) 7 (dayIdx_lt env) streams
      (List.replicate 7 0) (List.length_replicate 7 0) hval
    simpa using h

/-- Witness for the histogram claim at the one-record scenario collection. -/
theorem c8_histograms_witness :
    (hourlyCountsOf scenarioEnv [scenarioStream]).sum = 1 ∧
      (dailyCountsOf scenarioEnv [scenarioStream]).sum = 1 :=
  ⟨(c8_histograms scenarioEnv [scenarioStream] (by decide)).2.2.1,
    (c8_histograms scenarioEnv [scenarioStream] (by decide)).2.2.2.2.2.2.1⟩

/-- Claim C4, counterexample: ties are NOT broken by grouping-encounter order.
Both track names here tie at 100 summed milliseconds and "Purple Rain" is
encountered first, so the claimed tie-break requires the labels
["Purple Rain", "1999"]; but "1999" is a canonical array-index string, which
`Object.entries` enumerates before all plain string keys, and the stable sort
keeps that order, so the code returns ["1999", "Purple Rain"]. -/
theorem c4_counterexample :
    topEntries tieStreams trackNameKey 2 = [("1999", 100), ("Purple Rain", 100)] ∧
      ((tieStreams.map trackNameKey).filter (fun s => s != "")).dedup =
        ["Purple Rain", "1999"] ∧
      (getTopItems tieStreams trackNameKey 2).labels ≠ ["Purple Rain", "1999"] := by
  decide

/-- Claim C4, amended: for every collection, key selector and count N, the
Top-N ranking returns min(N, number of distinct non-empty key values) entries;
the entries are sorted non-increasing by summed msPlayed; ties are broken by
the object enumeration order of the grouping accumulator (canonical
array-index keys first in ascending numeric order, then the remaining keys in
grouping-encounter order — equal to encounter order when no key is an
array-index string); entries with a falsy/absent key are excluded; every
entry value is exactly the true total for that key over the full collection
(hence never exceeds it); and the reported data are those totals converted to
minutes rounded to 2 decimal places. -/
theorem c4_top_items (streams : List StreamRecord) (key : StreamRecord → String)
    (count : Nat) :
    (getTopItems streams key count).labels.length =
      min count (((streams.map key).filter (fun s => s != "")).dedup.length) ∧
    List.Pairwise (fun a b => b.2 ≤ a.2) (topEntries streams key count) ∧
    (∀ v : Int, (topEntries streams key count).filter (fun e => e.2 == v) <+:
      (topEntriesAll streams key).filter (fun e => e.2 == v)) ∧
    (∀ p ∈ topEntries streams key count,
      p.1 ≠ "" ∧
        p.2 = ((streams.filter (fun r => key r == p.1)).map (fun r => r.msPlayed)).sum) ∧
    getTopItems streams key count =
      { labels := (topEntries streams key count).map Prod.fst
        data := (topEntries streams key count).map
          (fun p => (round ((p.2 : ℚ) * 100 / 60000) : ℚ) / 100) } := by
  refine ⟨?_, ?_, ?_, ?_, ?_⟩
  · have e0 : (getTopItems streams key count).labels.length =
        (topEntries streams key count).length := by
      show ((topEntries streams key count).map Prod.fst).length = _
      rw [List.length_map]
    have e1 : (topEntries streams key count).length =
        min count (sortEntriesDesc (topEntriesAll streams key)).length :=
      List.length_take _ _
    have e2 : (sortEntriesDesc (topEntriesAll streams key)).length =
        (topEntriesAll streams key).length :=
      (sortEntriesDesc_perm _).length_eq
    have e3 : (topEntriesAll streams key).length =
        (groupSum (topKeyOf key) (fun r => r.msPlayed) streams).length :=
      (objectEntriesOrder_perm _).length_eq
    have e4 := length_groupSum (topKeyOf key) (fun r => r.msPlayed) streams
    rw [filterMap_topKeyOf] at e4
    rw [e0, e1, e2, e3, e4]
  · exact List.Pairwise.sublist (List.take_sublist count _) (pairwise_sortEntriesDesc _)
  · intro v
    have hpre : topEntries streams key count <+: sortEntriesDesc (topEntriesAll streams key) :=
      List.take_prefix _ _
    have h1 := List.IsPrefix.filter (fun e => e.2 == v) hpre
    rw [filter_sortEntriesDesc] at h1
    exact h1
  · intro p hp
    have hg := mem_topEntries_groupSum streams key count p hp
    rw [show p = (p.1, p.2) from rfl, mem_groupSum_iff] at hg
    obtain ⟨⟨r, hr, hkr⟩, hv⟩ := hg
    have hkne : p.1 ≠ "" := by
      unfold topKeyOf at hkr
      by_cases h : key r = ""
      · rw [if_pos h] at hkr
        cases hkr
      · rw [if_neg h] at hkr
        have hkey : key r = p.1 := Option.some.inj hkr
        rw [← hkey]
        exact h
    refine ⟨hkne, ?_⟩
    rw [hv, filter_topKeyOf_beq key p.1 hkne]
  · have hfun : (fun p : String × Int => ((roundDiv (100 * p.2) 60000 : Int) : ℚ) / 100) =
        (fun p : String × Int => (round ((p.2 : ℚ) * 100 / 60000) : ℚ) / 100) := by
      funext p
      rw [roundDiv_eq_round _ _ (by norm_num)]
      have harg : (((100 * p.2 : Int)) : ℚ) / ((60000 : ℕ) : ℚ) =
          (p.2 : ℚ) * 100 / 60000 := by
        push_cast
        ring
      rw [harg]
    show AggView.mk ((topEntries streams key count).map Prod.fst)
        ((topEntries streams key count).map
          (fun p => ((roundDiv (100 * p.2) 60000 : Int) : ℚ) / 100)) = _
    rw [hfun]

/-- Witness for the amended Top-N claim at the tie collection: the entry for
"1999" is in the top entries, its key is non-empty and its value is the true
total over the collection. -/
theorem c4_top_items_witness :
    ("1999", (100 : Int)) ∈ topEntries tieStreams trackNameKey 2 ∧
      (("1999" : String) ≠ "" ∧
        (100 : Int) =
          ((tieStreams.filter (fun r => trackNameKey r == "1999")).map
            (fun r => r.msPlayed)).sum) :=
  ⟨by decide,
    (c4_top_items tieStreams trackNameKey 2).2.2.2.1 ("1999", 100) (by decide)⟩

/-- Claim C5: the monthly view groups records by the zero-padded year-month
key of their parsed endTime, emits exactly the months that contain at least
one record, orders the buckets strictly ascending by the lexicographic key,
reports each bucket total converted to hours rounded to 2 decimal places, and
on the two-file specification scenario the full pipeline keeps exactly the one
legacy record, yielding the single bucket 2023-01 with 0.06 hours and a
summary play count of 1. -/
theorem c5_listening_over_time :
    (∀ (env : DateEnv) (streams : List StreamRecord),
      List.Pairwise (fun a b : String × Int => a.1 < b.1) (monthlyBuckets env streams) ∧
      (∀ k : String, k ∈ (monthlyBuckets env streams).map Prod.fst ↔
        ∃ r ∈ streams, monthKeyOf env r = k) ∧
      (∀ p ∈ monthlyBuckets env streams,
        p.2 = ((streams.filter (fun r => monthKeyOf env r == p.1)).map
          (fun r => r.msPlayed)).sum) ∧
      getListeningOverTime env streams =
        { labels := (monthlyBuckets env streams).map
            (fun p => env.renderMonth (p.1 ++ "-01"))
          data := (monthlyBuckets env streams).map
            (fun p => (round ((p.2 : ℚ) * 100 / 3600000) : ℚ) / 100) }) ∧
    handleFileProcessing scenarioEnv scenarioFiles = Outcome.success [scenarioCanon] ∧
    toStream scenarioCanon = some scenarioStream ∧
    monthlyBuckets scenarioEnv [scenarioStream] = [("2023-01", 200000)] ∧
    (getListeningOverTime scenarioEnv [scenarioStream]).data = [(6 : ℚ) / 100] ∧
    (displaySummaryStats [scenarioStream]).plays = 1 := by
  refine ⟨?_, by decide, by decide, by decide, ?_, by rfl⟩
  case refine_2 =>
    have hb : monthlyBuckets scenarioEnv [scenarioStream] = [("2023-01", 200000)] := by
      decide
    show (monthlyBuckets scenarioEnv [scenarioStream]).map
        (fun p => ((roundDiv (100 * p.2) 3600000 : Int) : ℚ) / 100) = [(6 : ℚ) / 100]
    rw [hb]
    have hr : roundDiv 20000000 3600000 = 6 := by decide
    norm_num [hr]
  intro env streams
  refine ⟨?_, ?_, ?_, ?_⟩
  · have hle := pairwise_sortByKeyAsc
      (groupSum (fun r => some (monthKeyOf env r)) (fun r => r.msPlayed) streams)
    have hnd : ((sortByKeyAsc (groupSum (fun r => some (monthKeyOf env r))
        (fun r => r.msPlayed) streams)).map Prod.fst).Nodup :=
      ((sortByKeyAsc_perm _).map Prod.fst).symm.nodup
        (nodup_fst_groupSum (fun r => some (monthKeyOf env r)) (fun r => r.msPlayed) streams)
    exact pairwise_lt_of_le_nodup _ hle hnd
  · intro k
    unfold monthlyBuckets
    rw [List.Perm.mem_iff ((sortByKeyAsc_perm _).map Prod.fst), mem_fst_groupSum]
    simp
  · intro p hp
    have hg := mem_monthlyBuckets_groupSum env streams p hp
    rw [show p = (p.1, p.2) from rfl, mem_groupSum_iff] at hg
    exact hg.2
  · have hfun : (fun p : String × Int => ((roundDiv (100 * p.2) 3600000 : Int) : ℚ) / 100) =
        (fun p : String × Int => (round ((p.2 : ℚ) * 100 / 3600000) : ℚ) / 100) := by
      funext p
      rw [roundDiv_eq_round _ _ (by norm_num)]
      have harg : (((100 * p.2 : Int)) : ℚ) / ((3600000 : ℕ) : ℚ) =
          (p.2 : ℚ) * 100 / 3600000 := by
        push_cast
        ring
      rw [harg]
    show AggView.mk ((monthlyBuckets env streams).map
          (fun p => env.renderMonth (p.1 ++ "-01")))
        ((monthlyBuckets env streams).map
          (fun p => ((roundDiv (100 * p.2) 3600000 : Int) : ℚ) / 100)) = _
    rw [hfun]

/-- Witness for the monthly-view claim at the scenario collection: the single
bucket is in the bucket list, and its value is the true monthly total. -/
theorem c5_listening_over_time_witness :
    ("2023-01", (200000 : Int)) ∈ monthlyBuckets scenarioEnv [scenarioStream] ∧
      (200000 : Int) =
        (([scenarioStream].filter
          (fun r => monthKeyOf scenarioEnv r == "2023-01")).map
            (fun r => r.msPlayed)).sum :=
  ⟨by decide,
    (c5_listening_over_time.1 scenarioEnv [scenarioStream]).2.2.1 ("2023-01", 200000)
      (by decide)⟩
